import Mathlib

/-!
Verification of the reconciliation logic of the Tailscale-to-Pi-hole DNS
sync script (tailscale-pihole-sync.py) against its specification.

The script is shallowly embedded: each Python function that carries logic
is translated to a Lean definition of the same name.  External
collaborators (the HTTP transport, the subprocess call, the standard
library IP parser) are modelled as explicit inputs:

* the Pi-hole HTTP responses become `Except Unit _` values (an `error`
  is a raised transport/parse exception, `ok none` is a response whose
  nested `config.dns.hosts` path is missing, `ok (some hosts)` is a
  well-formed response carrying the hosts list);
* `ipaddress.ip_address` becomes an abstract predicate
  `validIp : String → Bool` the definitions are parameterised over;
* Python dicts become association lists that keep insertion order, with
  dict-assignment semantics (`dictInsert`: overwrite in place when the
  key exists, append otherwise);
* the observable store interactions of one run of
  `sync_tailscale_to_pihole` are collected in an event trace.
-/

namespace TsPihole

/-- One value of the parsed `tailscale status --json` peer map.  Fields the
Python reads with `.get` are `Option`s: `none` is an absent key. -/
structure Peer where
  id : String
  online : Option Bool
  tailscaleIPs : Option (List String)
  ip : Option String
  dnsName : Option String
deriving DecidableEq, Repr

/-- The parsed `tailscale status --json` document: the `Peer` map (an
insertion-ordered association list, empty when the key is absent) and the
optional `Self` record. -/
structure TailscaleStatus where
  peer : List (String × Peer)
  self : Option Peer
deriving DecidableEq, Repr

/-- Python dict assignment `d[k] = v` on an insertion-ordered association
list: overwrite in place if the key is present, append otherwise. -/
def dictInsert {α : Type} (l : List (String × α)) (k : String) (v : α) :
    List (String × α) :=
  if l.any (fun p => p.1 == k) then
    l.map (fun p => if p.1 == k then (k, v) else p)
  else
    l ++ [(k, v)]

/-- Lines 223-225: `peers = tailscale_status.get("Peer", {}).copy()` followed
by `peers[tailscale_status["Self"]["ID"]] = tailscale_status["Self"]` when a
`Self` record is present. -/
def mergedPeers (st : TailscaleStatus) : List (String × Peer) :=
  match st.self with
  | some s => dictInsert st.peer s.id s
  | none => st.peer

/-- Python `str.split(sep)` for a one-character separator, on the character
list: `"".split(".") == [""]`, and separators at the ends produce empty
fields. -/
def splitCharsOn (sep : Char) : List Char → List (List Char)
  | [] => [[]]
  | c :: cs =>
    let rest := splitCharsOn sep cs
    if c == sep then [] :: rest
    else
      match rest with
      | [] => [[c]]
      | r :: rs => (c :: r) :: rs

/-- Python `s.split(sep)` for a one-character separator, on strings. -/
def splitOnChar (sep : Char) (s : String) : List String :=
  (splitCharsOn sep s.data).map String.mk

/-- Lines 181-190, `extract_hostname`: take the part of the DNS name before
the first dot (the whole name when there is no dot) and append the
configured suffix.  On the empty DNS name the split yields `[""]`, so the
result is the bare suffix. -/
def extract_hostname (suffix dns_name : String) : String :=
  (splitOnChar '.' dns_name).headD "" ++ suffix

/-- Lines 234-235: the `elif peer.get("IP")` fallback — a single-element
list holding the peer's reported IP when that key is present and truthy
(non-empty), otherwise nothing. -/
def fallbackIPs (peer : Peer) : List String :=
  match peer.ip with
  | some s => if s = "" then [] else [s]
  | none => []

/-- Lines 231-235: the address list a peer publishes — its `TailscaleIPs`
when that key holds a non-empty list, else the `IP` fallback. -/
def peerIPs (peer : Peer) : List String :=
  match peer.tailscaleIPs with
  | some l => if l = [] then fallbackIPs peer else l
  | none => fallbackIPs peer

/-- Lines 228-255, the loop body for one peer: skip unless `Online` is
truthy (absent counts as `False`), skip when the address list is empty,
skip when the extracted domain is empty, then keep one `"<ip> <domain>"`
entry per address that `validIp` (modelling `ipaddress.ip_address`)
accepts, dropping invalid addresses individually. -/
def peerEntries (validIp : String → Bool) (suffix : String) (peer : Peer) :
    List String :=
  if peer.online.getD false then
    let ips := peerIPs peer
    if ips = [] then []
    else
      let domain := extract_hostname suffix (peer.dnsName.getD "")
      if domain = "" then []
      else ips.filterMap (fun ip => if validIp ip then some (ip ++ " " ++ domain) else none)
  else []

/-- `desired_entries[key] = True` on a Python dict whose values are all
`True`: keep the keys in insertion order, first occurrence wins. -/
def insertKey (l : List String) (k : String) : List String :=
  if k ∈ l then l else l ++ [k]

/-- Lines 220-258: fold every peer's entries into the `desired_entries`
dict and read the keys back off — the `"<ip> <domain>"` lines submitted to
Pi-hole. -/
def buildEntries (validIp : String → Bool) (suffix : String)
    (peers : List (String × Peer)) : List String :=
  peers.foldl (fun acc p => (peerEntries validIp suffix p.2).foldl insertKey acc) []

/-- Python `entry.split(" ", 1)` guarded by `if " " in entry`: `none` when
the entry has no space, otherwise the text before the first space and the
rest of the entry verbatim. -/
def splitFirstSpaceChars : List Char → Option (List Char × List Char)
  | [] => none
  | c :: cs =>
    if c == ' ' then some ([], cs)
    else
      match splitFirstSpaceChars cs with
      | none => none
      | some (a, b) => some (c :: a, b)

/-- String-level wrapper of `splitFirstSpaceChars`. -/
def splitFirstSpace (s : String) : Option (String × String) :=
  match splitFirstSpaceChars s.data with
  | none => none
  | some (a, b) => some (String.mk a, String.mk b)

/-- Lines 117-123: build the `entries` dict from the `dns.hosts` list —
each `"<ip> <domain>"` line with a space becomes `entries[domain] = ip`;
lines without a space are ignored. -/
def parseDnsHosts (hosts : List String) : List (String × String) :=
  hosts.foldl
    (fun acc entry =>
      match splitFirstSpace entry with
      | some (ip, domain) => dictInsert acc domain ip
      | none => acc)
    []

/-- Lines 102-130, `get_custom_dns_entries`: a raised transport or parse
exception (`error`) and a response without the `config.dns.hosts` path
(`ok none`) both yield the empty dict; otherwise the hosts list is parsed
into the domain-keyed dict. -/
def get_custom_dns_entries (resp : Except Unit (Option (List String))) :
    List (String × String) :=
  match resp with
  | Except.error _ => []
  | Except.ok none => []
  | Except.ok (some hosts) => parseDnsHosts hosts

/-- Lines 133-178, `update_custom_dns_entries`, as a function of the
submitted entries and the store's response: `False` on a raised transport
exception and on a response without `config.dns.hosts`; `True` when the
path is present, both when the echoed count matches (line 167) and when it
does not (lines 170-171, warning only). -/
def update_custom_dns_entries (entries : List String)
    (resp : Except Unit (Option (List String))) : Bool :=
  match resp with
  | Except.error _ => false
  | Except.ok none => false
  | Except.ok (some responseHosts) =>
    if responseHosts.length = entries.length then
      true
    else
      true

/-- One observable store interaction of a run: the authenticate call, the
`tailscale status` invocation, the config read (carrying the dict it
produced), the config write (carrying the submitted hosts list), and the
session logout. -/
inductive Event where
  | authenticate : Event
  | tailscaleStatus : Event
  | readHosts : List (String × String) → Event
  | writeHosts : List String → Event
  | logout : Event
deriving DecidableEq, Repr

/-- The ambient inputs of one run: the configured password and hostname
suffix, the outcome of each external call, and the IP-validity oracle. -/
structure Env where
  password : String
  authResult : Option String
  tsResult : Except Unit TailscaleStatus
  readResult : Except Unit (Option (List String))
  validIp : String → Bool
  suffix : String

/-- Lines 193-272, `sync_tailscale_to_pihole`, as the trace of store
interactions: return at once on an empty password; return after the auth
call when it yields no (or a falsy) session id; otherwise run the body
under try/finally — when the `tailscale status` call raises, the finally
block still logs out; when it returns, the config is read, the desired
entries are built from the merged peer map, the write is submitted, and
the session is logged out. -/
def sync_tailscale_to_pihole (env : Env) : List Event :=
  if env.password = "" then []
  else
    match env.authResult with
    | none => [Event.authenticate]
    | some sid =>
      if sid = "" then [Event.authenticate]
      else
        match env.tsResult with
        | Except.error _ => [Event.authenticate, Event.tailscaleStatus, Event.logout]
        | Except.ok status =>
          [Event.authenticate, Event.tailscaleStatus,
           Event.readHosts (get_custom_dns_entries env.readResult),
           Event.writeHosts (buildEntries env.validIp env.suffix (mergedPeers status)),
           Event.logout]

/-- The payloads of the write calls in a trace. -/
def writePayloads (tr : List Event) : List (List String) :=
  tr.filterMap (fun e => match e with | Event.writeHosts p => some p | _ => none)

/-- A concrete IP-validity oracle for witnesses: accepts the two scenario
addresses and rejects everything else (in particular `not-an-ip`). -/
def validIpEx : String → Bool :=
  fun s => s == "100.1.1.1" || s == "fd7a::1" || s == "100.2.2.2"

/-- Scenario A peer: online, two Tailscale addresses, a full mesh DNS name. -/
def peerA : Peer :=
  { id := "1", online := some true, tailscaleIPs := some ["100.1.1.1", "fd7a::1"],
    ip := none, dnsName := some "host1.tailnet.ts.net" }

/-- A status document holding only the Scenario A peer. -/
def statusA : TailscaleStatus := { peer := [("k1", peerA)], self := none }

/-- A run environment for witnesses: password set, auth succeeds, the status
fetch returns `statusA`, and the config read raises. -/
def envEx : Env :=
  { password := "pw", authResult := some "sid1", tsResult := Except.ok statusA,
    readResult := Except.error (), validIp := validIpEx, suffix := ".ts" }

/-- The self record of the C4 witness: shares its id with an entry already
in the peer map. -/
def selfPeer : Peer :=
  { id := "idS", online := some true, tailscaleIPs := some ["100.1.1.1"],
    ip := none, dnsName := some "self1.tailnet.ts.net" }

/-- The stale peer-map entry the C4 witness overwrites. -/
def peerOld : Peer :=
  { id := "idS", online := some false, tailscaleIPs := none,
    ip := none, dnsName := some "self1.tailnet.ts.net" }

/-- A status document whose peer map already holds the self record's id. -/
def statusSelf : TailscaleStatus :=
  { peer := [("idS", peerOld)], self := some selfPeer }

/-- An offline-by-absence peer for the C10 witness: no `Online` key at all,
yet a valid address and DNS name. -/
def peerNoOnline : Peer :=
  { id := "3", online := none, tailscaleIPs := some ["100.1.1.1"],
    ip := none, dnsName := some "host3.tailnet.ts.net" }

/-! ## Helper lemmas -/

theorem filterMap_guard_eq_map_filter {α β : Type} (p : α → Bool) (f : α → β)
    (l : List α) :
    l.filterMap (fun a => if p a then some (f a) else none) = (l.filter p).map f := by
  induction l with
  | nil => rfl
  | cons x xs ih => by_cases h : p x <;> simp [List.filterMap_cons, List.filter_cons, h, ih]

theorem mem_insertKey (l : List String) (k a : String) :
    a ∈ insertKey l k ↔ a ∈ l ∨ a = k := by
  unfold insertKey
  by_cases h : k ∈ l
  · rw [if_pos h]
    constructor
    · exact fun ha => Or.inl ha
    · rintro (ha | rfl)
      · exact ha
      · exact h
  · simp [if_neg h]

theorem nodup_insertKey (l : List String) (k : String) (h : l.Nodup) :
    (insertKey l k).Nodup := by
  unfold insertKey
  by_cases hk : k ∈ l
  · rw [if_pos hk]; exact h
  · rw [if_neg hk]
    simp [List.nodup_append, h, hk]

theorem mem_foldl_insertKey (es : List String) :
    ∀ (acc : List String) (a : String),
      a ∈ es.foldl insertKey acc ↔ a ∈ acc ∨ a ∈ es := by
  induction es with
  | nil => intro acc a; simp
  | cons e es ih =>
    intro acc a
    rw [List.foldl_cons, ih, mem_insertKey]
    simp [List.mem_cons, or_assoc, or_comm, or_left_comm]

theorem nodup_foldl_insertKey (es : List String) :
    ∀ acc : List String, acc.Nodup → (es.foldl insertKey acc).Nodup := by
  induction es with
  | nil => intro acc h; simpa
  | cons e es ih => intro acc h; exact ih _ (nodup_insertKey _ _ h)

theorem mem_buildEntries_aux (validIp : String → Bool) (suffix : String)
    (peers : List (String × Peer)) :
    ∀ (acc : List String) (a : String),
      a ∈ peers.foldl (fun acc p => (peerEntries validIp suffix p.2).foldl insertKey acc) acc ↔
        a ∈ acc ∨ ∃ p ∈ peers, a ∈ peerEntries validIp suffix p.2 := by
  induction peers with
  | nil => intro acc a; simp
  | cons q qs ih =>
    intro acc a
    rw [List.foldl_cons, ih, mem_foldl_insertKey]
    simp [List.exists_mem_cons_iff, or_assoc]

theorem mem_buildEntries (validIp : String → Bool) (suffix : String)
    (peers : List (String × Peer)) (a : String) :
    a ∈ buildEntries validIp suffix peers ↔
      ∃ p ∈ peers, a ∈ peerEntries validIp suffix p.2 := by
  unfold buildEntries
  rw [mem_buildEntries_aux]
  simp

theorem nodup_buildEntries_aux (validIp : String → Bool) (suffix : String)
    (peers : List (String × Peer)) :
    ∀ acc : List String, acc.Nodup →
      (peers.foldl (fun acc p => (peerEntries validIp suffix p.2).foldl insertKey acc)
        acc).Nodup := by
  induction peers with
  | nil => intro acc h; simpa
  | cons q qs ih => intro acc h; exact ih _ (nodup_foldl_insertKey _ _ h)

theorem nodup_buildEntries (validIp : String → Bool) (suffix : String)
    (peers : List (String × Peer)) : (buildEntries validIp suffix peers).Nodup :=
  nodup_buildEntries_aux validIp suffix peers [] List.nodup_nil

theorem extract_hostname_ne_empty (suffix d : String) (h : suffix ≠ "") :
    extract_hostname suffix d ≠ "" := by
  unfold extract_hostname
  intro hc
  apply h
  have hdata := congrArg String.data hc
  rw [String.data_append] at hdata
  have hs : suffix.data = [] := (List.append_eq_nil.mp hdata).2
  exact String.ext hs

theorem map_fst_replace {α : Type} (l : List (String × α)) (k : String) (v : α) :
    (l.map (fun p => if p.1 == k then (k, v) else p)).map Prod.fst = l.map Prod.fst := by
  induction l with
  | nil => rfl
  | cons q qs ih =>
    by_cases hq : q.1 == k
    · simp only [List.map_cons, if_pos hq, ih]
      rw [beq_iff_eq.mp hq]
    · simp only [List.map_cons, if_neg hq, ih]

theorem any_key_iff {α : Type} (l : List (String × α)) (k : String) :
    l.any (fun p => p.1 == k) = true ↔ k ∈ l.map Prod.fst := by
  simp only [List.any_eq_true, beq_iff_eq, List.mem_map]

theorem nodup_map_fst_dictInsert {α : Type} (l : List (String × α)) (k : String) (v : α)
    (h : (l.map Prod.fst).Nodup) : ((dictInsert l k v).map Prod.fst).Nodup := by
  unfold dictInsert
  by_cases ha : l.any (fun p => p.1 == k)
  · rw [if_pos ha, map_fst_replace]
    exact h
  · rw [if_neg ha, List.map_append]
    have hk : k ∉ l.map Prod.fst := fun hm => ha ((any_key_iff l k).mpr hm)
    simp [List.nodup_append, h, hk]

theorem countP_key_eq_zero {α : Type} (l : List (String × α)) (k : String)
    (h : k ∉ l.map Prod.fst) : l.countP (fun p => p.1 == k) = 0 := by
  apply List.countP_eq_zero.mpr
  intro p hp
  simp only [beq_iff_eq]
  intro hk
  exact h (hk ▸ List.mem_map_of_mem Prod.fst hp)

theorem countP_key_eq_one {α : Type} (l : List (String × α)) (k : String)
    (hnd : (l.map Prod.fst).Nodup) (hmem : ∃ p ∈ l, p.1 = k) :
    l.countP (fun p => p.1 == k) = 1 := by
  induction l with
  | nil => simp at hmem
  | cons q qs ih =>
    rw [List.map_cons, List.nodup_cons] at hnd
    by_cases hq : q.1 = k
    · rw [List.countP_cons_of_pos _ _ (by simp [hq])]
      have hz : qs.countP (fun p => p.1 == k) = 0 := by
        apply countP_key_eq_zero
        rw [← hq]
        exact hnd.1
      omega
    · rw [List.countP_cons_of_neg _ _ (by simp [hq])]
      apply ih hnd.2
      rcases hmem with ⟨p, hp, hpk⟩
      rcases List.mem_cons.mp hp with rfl | hp2
      · exact absurd hpk hq
      · exact ⟨p, hp2, hpk⟩

theorem countP_map_replace {α : Type} (l : List (String × α)) (k : String) (v : α) :
    (l.map (fun p => if p.1 == k then (k, v) else p)).countP (fun p => p.1 == k) =
      l.countP (fun p => p.1 == k) := by
  induction l with
  | nil => rfl
  | cons q qs ih =>
    rw [List.map_cons, List.countP_cons, List.countP_cons, ih]
    congr 1
    by_cases hq : q.1 == k
    · rw [if_pos hq]
      have h1 : ((k, v).1 == k) = true := by simp
      rw [h1, hq]
    · rw [if_neg hq]

theorem nodup_parseDnsHosts (hosts : List String) :
    ((parseDnsHosts hosts).map Prod.fst).Nodup := by
  unfold parseDnsHosts
  suffices h : ∀ acc : List (String × String), (acc.map Prod.fst).Nodup →
      ((hosts.foldl
        (fun acc entry =>
          match splitFirstSpace entry with
          | some (ip, domain) => dictInsert acc domain ip
          | none => acc)
        acc).map Prod.fst).Nodup by
    exact h [] (by simp)
  induction hosts with
  | nil => intro acc h; simpa
  | cons e es ih =>
    intro acc h
    rw [List.foldl_cons]
    cases hsp : splitFirstSpace e with
    | none => simpa [hsp] using ih acc h
    | some pr =>
      obtain ⟨ip, domain⟩ := pr
      simpa [hsp] using ih (dictInsert acc domain ip) (nodup_map_fst_dictInsert acc domain ip h)

/-! ## Claim theorems -/

/-- Claim C1, evidence of the code bug: a peer whose DNS name is the empty
string is NOT skipped.  With the default suffix `.ts`, `extract_hostname`
returns the bare suffix `.ts`, which is non-empty, so the `if not domain`
guard never fires and the loop emits one record per valid address — here
the nonsense record `100.1.1.1 .ts` — instead of producing zero records. -/
theorem empty_dnsname_peer_not_skipped :
    peerEntries validIpEx ".ts"
      { id := "p1", online := some true, tailscaleIPs := some ["100.1.1.1"],
        ip := none, dnsName := some "" } = ["100.1.1.1 .ts"] := by
  decide

/-- Claim C2: for an online peer with a non-empty DNS name, the peer's
contribution is exactly one record per address that passes validation —
hostname is the first dot-separated label of the DNS name with the suffix
appended — invalid addresses are dropped individually without affecting
sibling valid addresses, and in the desired set each record appears exactly
once (the set is duplicate-free and contains every valid address's record). -/
theorem online_peer_entries_spec (validIp : String → Bool) (suffix : String)
    (peers : List (String × Peer)) (pid : String) (peer : Peer) (d : String)
    (honline : peer.online.getD false = true)
    (hdns : peer.dnsName = some d) (_hd : d ≠ "") (hsuffix : suffix ≠ "")
    (hmem : (pid, peer) ∈ peers) :
    peerEntries validIp suffix peer =
      ((peerIPs peer).filter validIp).map
        (fun ip => ip ++ " " ++ ((splitOnChar '.' d).headD "" ++ suffix)) ∧
    (buildEntries validIp suffix peers).Nodup ∧
    ∀ ip ∈ peerIPs peer, validIp ip = true →
      ip ++ " " ++ ((splitOnChar '.' d).headD "" ++ suffix) ∈
        buildEntries validIp suffix peers := by
  have hne : ¬ extract_hostname suffix d = "" := extract_hostname_ne_empty suffix d hsuffix
  have heq : peerEntries validIp suffix peer =
      ((peerIPs peer).filter validIp).map
        (fun ip => ip ++ " " ++ ((splitOnChar '.' d).headD "" ++ suffix)) := by
    show (if peer.online.getD false then
        (if peerIPs peer = [] then [] else
          if extract_hostname suffix (peer.dnsName.getD "") = "" then []
          else (peerIPs peer).filterMap
            (fun ip =>
              if validIp ip then
                some (ip ++ " " ++ extract_hostname suffix (peer.dnsName.getD ""))
              else none))
      else []) = _
    rw [if_pos honline, hdns]
    show (if peerIPs peer = [] then [] else
        if extract_hostname suffix d = "" then []
        else (peerIPs peer).filterMap
          (fun ip => if validIp ip then some (ip ++ " " ++ extract_hostname suffix d)
            else none)) = _
    by_cases hips : peerIPs peer = []
    · rw [if_pos hips, hips]
      simp
    · rw [if_neg hips, if_neg hne]
      exact filterMap_guard_eq_map_filter validIp _ _
  refine ⟨heq, nodup_buildEntries validIp suffix peers, ?_⟩
  intro ip hip hvalid
  rw [mem_buildEntries]
  refine ⟨(pid, peer), hmem, ?_⟩
  rw [heq]
  exact List.mem_map_of_mem _ (List.mem_filter.mpr ⟨hip, hvalid⟩)

/-- Witness for C2 on Scenario A: peer `host1.tailnet.ts.net` with addresses
`100.1.1.1` and `fd7a::1` and suffix `.ts`. -/
theorem online_peer_entries_spec_witness :
    peerA.online.getD false = true ∧ peerA.dnsName = some "host1.tailnet.ts.net" ∧
    (peerEntries validIpEx ".ts" peerA =
      ((peerIPs peerA).filter validIpEx).map
        (fun ip => ip ++ " " ++ ((splitOnChar '.' "host1.tailnet.ts.net").headD "" ++ ".ts")) ∧
    (buildEntries validIpEx ".ts" [("k1", peerA)]).Nodup ∧
    ∀ ip ∈ peerIPs peerA, validIpEx ip = true →
      ip ++ " " ++ ((splitOnChar '.' "host1.tailnet.ts.net").headD "" ++ ".ts") ∈
        buildEntries validIpEx ".ts" [("k1", peerA)]) :=
  ⟨by decide, by decide,
    online_peer_entries_spec validIpEx ".ts" [("k1", peerA)] "k1" peerA
      "host1.tailnet.ts.net" (by decide) (by decide) (by decide) (by decide) (by decide)⟩

/-- Claim C3, counterexample: two `dns.hosts` lines with the same domain and
different IPs do NOT both survive the read — `entries[domain] = ip` keys the
result by domain, so the later IP overwrites the earlier one and only a
single record comes back. -/
theorem existing_table_drops_duplicate_domain :
    get_custom_dns_entries (Except.ok (some ["1.1.1.1 a.ts", "fd7a::1 a.ts"])) =
      [("a.ts", "fd7a::1")] ∧
    ("a.ts", "1.1.1.1") ∉
      get_custom_dns_entries (Except.ok (some ["1.1.1.1 a.ts", "fd7a::1 a.ts"])) := by
  decide

/-- Claim C3 as amended: the existing table returned by the read is a map
keyed by domain — its domains are pairwise distinct, so a hostname maps to
at most one address and duplicate-domain lines collapse to the last one. -/
theorem existing_table_keys_nodup (hosts : List String) :
    ((get_custom_dns_entries (Except.ok (some hosts))).map Prod.fst).Nodup :=
  nodup_parseDnsHosts hosts

/-- Claim C4: merging the `Self` record into the peer map under its own id
leaves exactly one entry for that id (dict assignment overwrites in place
when the id is already present, appends otherwise), and that entry is the
self record, which the build loop then processes like any other peer. -/
theorem self_merged_no_duplicate (st : TailscaleStatus) (s : Peer)
    (hnd : (st.peer.map Prod.fst).Nodup) (hself : st.self = some s) :
    (mergedPeers st).countP (fun p => p.1 == s.id) = 1 ∧
    (s.id, s) ∈ mergedPeers st := by
  have hm : mergedPeers st = dictInsert st.peer s.id s := by
    unfold mergedPeers
    rw [hself]
  rw [hm]
  unfold dictInsert
  by_cases h : st.peer.any (fun p => p.1 == s.id)
  · rw [if_pos h]
    obtain ⟨p, hp, hpk⟩ := List.any_eq_true.mp h
    constructor
    · rw [countP_map_replace]
      exact countP_key_eq_one st.peer s.id hnd ⟨p, hp, beq_iff_eq.mp hpk⟩
    · exact List.mem_map.mpr ⟨p, hp, by simp [hpk]⟩
  · rw [if_neg h]
    constructor
    · rw [List.countP_append]
      have hz : st.peer.countP (fun p => p.1 == s.id) = 0 :=
        countP_key_eq_zero st.peer s.id (fun hm => h ((any_key_iff st.peer s.id).mpr hm))
      simp [hz]
    · simp

/-- Witness for C4: the peer map already holds an entry under the self id;
after the merge there is exactly one entry for that id and it is the self
record. -/
theorem self_merged_no_duplicate_witness :
    (statusSelf.peer.map Prod.fst).Nodup ∧
    ((mergedPeers statusSelf).countP (fun p => p.1 == selfPeer.id) = 1 ∧
      (selfPeer.id, selfPeer) ∈ mergedPeers statusSelf) :=
  ⟨by decide, self_merged_no_duplicate statusSelf selfPeer (by decide) rfl⟩

/-- Claim C5: when the config read raises, the existing table degrades to
the empty dict, the run is not aborted, and the write is still submitted
with the full desired set built from the peers. -/
theorem read_failure_empty_and_write_proceeds (env : Env)
    (status : TailscaleStatus) (sid : String)
    (hp : env.password ≠ "") (ha : env.authResult = some sid) (hs : sid ≠ "")
    (ht : env.tsResult = Except.ok status)
    (hr : env.readResult = Except.error ()) :
    sync_tailscale_to_pihole env =
      [Event.authenticate, Event.tailscaleStatus, Event.readHosts [],
       Event.writeHosts (buildEntries env.validIp env.suffix (mergedPeers status)),
       Event.logout] := by
  simp only [sync_tailscale_to_pihole, hp, ha, hs, ht, hr, if_neg, if_false,
    ite_false, get_custom_dns_entries]

/-- Witness for C5: concrete run whose read raises; the trace still reads
(getting the empty dict) and writes the two Scenario A records. -/
theorem read_failure_empty_and_write_proceeds_witness :
    envEx.password ≠ "" ∧ envEx.readResult = Except.error () ∧
    sync_tailscale_to_pihole envEx =
      [Event.authenticate, Event.tailscaleStatus, Event.readHosts [],
       Event.writeHosts (buildEntries envEx.validIp envEx.suffix (mergedPeers statusA)),
       Event.logout] :=
  ⟨by decide, rfl,
    read_failure_empty_and_write_proceeds envEx statusA "sid1" (by decide) rfl (by decide)
      rfl rfl⟩

/-- Claim C6: when the store's write response carries the
`config.dns.hosts` path but echoes a record count different from the number
submitted, the write still returns success. -/
theorem write_count_mismatch_success (entries responseHosts : List String)
    (h : responseHosts.length ≠ entries.length) :
    update_custom_dns_entries entries (Except.ok (some responseHosts)) = true := by
  show (if responseHosts.length = entries.length then true else true) = true
  rw [if_neg h]

/-- Witness for C6: one entry submitted, zero echoed back — still success. -/
theorem write_count_mismatch_success_witness :
    ([] : List String).length ≠ ["100.1.1.1 host1.ts"].length ∧
    update_custom_dns_entries ["100.1.1.1 host1.ts"] (Except.ok (some [])) = true :=
  ⟨by decide, write_count_mismatch_success ["100.1.1.1 host1.ts"] [] (by decide)⟩

/-- Claim C7: once authentication yields a usable session id, the logout
call appears exactly once in the run's trace, on every exit path — both
when the peer-source fetch raises and when the body runs to completion. -/
theorem logout_once_after_auth (env : Env) (sid : String)
    (hp : env.password ≠ "") (ha : env.authResult = some sid) (hs : sid ≠ "") :
    (sync_tailscale_to_pihole env).count Event.logout = 1 := by
  cases ht : env.tsResult with
  | error e =>
    simp only [sync_tailscale_to_pihole, hp, ha, hs, ht, if_neg, if_false, ite_false]
    rfl
  | ok status =>
    simp only [sync_tailscale_to_pihole, hp, ha, hs, ht, if_neg, if_false, ite_false]
    simp [List.count_cons]

/-- Witness for C7 on the concrete environment: the trace holds exactly one
logout event. -/
theorem logout_once_after_auth_witness :
    envEx.password ≠ "" ∧ envEx.authResult = some "sid1" ∧
    (sync_tailscale_to_pihole envEx).count Event.logout = 1 :=
  ⟨by decide, rfl, logout_once_after_auth envEx "sid1" (by decide) rfl (by decide)⟩

/-- Claim C8: the write payload is a function of the peer list alone — two
runs that differ only in what the config read returned (success, failure,
or any contents) submit identical write payloads. -/
theorem write_payload_independent_of_read (env : Env)
    (r1 r2 : Except Unit (Option (List String))) :
    writePayloads (sync_tailscale_to_pihole { env with readResult := r1 }) =
      writePayloads (sync_tailscale_to_pihole { env with readResult := r2 }) := by
  unfold sync_tailscale_to_pihole
  by_cases hp : env.password = ""
  · simp [hp]
  · cases ha : env.authResult with
    | none => simp [hp, ha]
    | some sid =>
      by_cases hs : sid = ""
      · simp [hp, ha, hs]
      · cases ht : env.tsResult with
        | error e => simp [hp, ha, hs, ht, writePayloads]
        | ok status => simp [hp, ha, hs, ht, writePayloads]

/-- Claim C9: with an empty password the run returns before anything else —
the trace is empty, so no authenticate, read, write or logout call is ever
made. -/
theorem empty_password_aborts (env : Env) (hp : env.password = "") :
    sync_tailscale_to_pihole env = [] := by
  unfold sync_tailscale_to_pihole
  rw [if_pos hp]

/-- Witness for C9: a concrete environment with an empty password yields
the empty trace. -/
theorem empty_password_aborts_witness :
    ({ envEx with password := "" } : Env).password = "" ∧
    sync_tailscale_to_pihole { envEx with password := "" } = [] :=
  ⟨rfl, empty_password_aborts { envEx with password := "" } rfl⟩

/-- Claim C10: a peer record without the `Online` key is treated as offline
(`peer.get("Online", False)` yields `False`) and contributes no records. -/
theorem absent_online_no_entries (validIp : String → Bool) (suffix : String)
    (peer : Peer) (h : peer.online = none) :
    peerEntries validIp suffix peer = [] := by
  unfold peerEntries
  rw [h]
  rfl

/-- Witness for C10: a peer with no `Online` key, a valid address and a DNS
name still contributes nothing. -/
theorem absent_online_no_entries_witness :
    peerNoOnline.online = none ∧ peerEntries validIpEx ".ts" peerNoOnline = [] :=
  ⟨rfl, absent_online_no_entries validIpEx ".ts" peerNoOnline rfl⟩

end TsPihole
